import Mathlib

/-!
Verification of the Gasteiger–Marsili charge computation of the
biotite repository.  The algorithm itself (`partial_charges` in
`biotite.structure.charges`) is exercised by
`tests/structure/test_charges.py`; the embedding below models the
computation from the specification (§3–§7) and is checked against the
behaviour pinned down by that test file.
-/

set_option allowUnsafeReducibility true in
attribute [semireducible] Rat.add Rat.mul Rat.sub Rat.inv Rat.ofScientific

namespace Gasteiger

/-- Modelled from the spec: the Molecular Graph Model (§3, §4.1).
A molecule is an ordered sequence of atoms (index = identity), each with
an element symbol and an integer formal charge, plus an undirected bond
list of atom-index pairs.  Field names follow the source attributes
(`element`, `charge`, `bonds` of an `AtomArray`). -/
structure Molecule where
  element : List String
  charge : List Int
  bonds : List (Nat × Nat)
deriving DecidableEq, Repr

/-- Number of atoms of the molecule (`array_length` in the source). -/
def Molecule.array_length (m : Molecule) : Nat := m.element.length

/-- Modelled from the spec: number of bonds at atom `i` (the degree,
§4.1), i.e. the number of entries of the bond list incident to `i`. -/
def degreeOf (bonds : List (Nat × Nat)) (i : Nat) : Nat :=
  bonds.countP (fun b => b.1 == i || b.2 == i)

/-- Modelled from the spec: the Parameter Table (§4.3), a read-only
lookup from (element, binding-partner count) to the `(a, b, c)`
electronegativity coefficients of the original Gasteiger–Marsili 1980
parametrization.  Absence of an entry is meaningful (fallback policy). -/
def enParameters : String → Nat → Option (ℚ × ℚ × ℚ)
  | "H", 1 => some (717/100, 624/100, -(56/100))
  | "C", 4 => some (798/100, 918/100, 188/100)
  | "C", 3 => some (879/100, 932/100, 151/100)
  | "C", 2 => some (1039/100, 945/100, 73/100)
  | "N", 3 => some (1154/100, 1082/100, 136/100)
  | "N", 2 => some (1287/100, 1115/100, 85/100)
  | "N", 1 => some (1568/100, 1170/100, -(27/100))
  | "O", 2 => some (1418/100, 1292/100, 139/100)
  | "O", 1 => some (1707/100, 1379/100, 47/100)
  | "F", 1 => some (1466/100, 1385/100, 231/100)
  | "CL", 1 => some (1100/100, 969/100, 135/100)
  | "BR", 1 => some (1008/100, 847/100, 116/100)
  | "I", 1 => some (990/100, 796/100, 96/100)
  | "S", 2 => some (1014/100, 913/100, 138/100)
  | _, _ => none

/-- Modelled from the spec: electronegativity χ = a + b·Q + c·Q² of an
atom with coefficients `p` at current working charge `q` (§4.4 step a). -/
def chi (p : ℚ × ℚ × ℚ) (q : ℚ) : ℚ := p.1 + p.2.1 * q + p.2.2 * q * q

/-- Modelled from the spec: the normalization divisor of a charge
transfer, the cation electronegativity `a + b + c` of the donating atom,
replaced by the fixed constant 20.02 when the donor is hydrogen (§4.4
step b, "per the original formulation"). -/
def chiPlus (element : String) (p : ℚ × ℚ × ℚ) : ℚ :=
  if element = "H" then 2002/100 else p.1 + p.2.1 + p.2.2

/-- Modelled from the spec: the undamped charge increment received by
atom `j` across one bond with atom `k` (§4.4 step b): the more
electronegative endpoint gains negative charge proportional to the
electronegativity difference over the donor's `chiPlus`; no transfer
happens when either endpoint has no Parameter Table entry. -/
def flow (E : List String) (P : List (Option (ℚ × ℚ × ℚ)))
    (w : List ℚ) (j k : Nat) : ℚ :=
  match P.getD j none, P.getD k none with
  | some pj, some pk =>
    let ej := chi pj (w.getD j 0)
    let ek := chi pk (w.getD k 0)
    if ek < ej then -((ej - ek) / chiPlus (E.getD k "") pk)
    else if ej < ek then (ek - ej) / chiPlus (E.getD j "") pj
    else 0
  | _, _ => 0

/-- The charge increment atom `i` receives from one bond `b`. -/
def bondDelta (E : List String) (P : List (Option (ℚ × ℚ × ℚ)))
    (w : List ℚ) (b : Nat × Nat) (i : Nat) : ℚ :=
  if b.1 = i then flow E P w i b.2
  else if b.2 = i then flow E P w i b.1
  else 0

/-- The total undamped charge increment atom `i` receives in one step,
accumulated over the whole bond list. -/
def bondDeltas (E : List String) (P : List (Option (ℚ × ℚ × ℚ)))
    (bonds : List (Nat × Nat)) (w : List ℚ) (i : Nat) : ℚ :=
  (bonds.map (fun b => bondDelta E P w b i)).sum

/-- Modelled from the spec: one synchronous iteration step (§4.4 steps
a–c): every per-bond delta is computed from the same snapshot `w` and
all deltas are applied simultaneously, scaled by the damping factor. -/
def stepWork (E : List String) (P : List (Option (ℚ × ℚ × ℚ)))
    (bonds : List (Nat × Nat)) (damp : ℚ) (w : List ℚ) : List ℚ :=
  (List.range w.length).map (fun i => w.getD i 0 + damp * bondDeltas E P bonds w i)

/-- Modelled from the spec: the per-atom Parameter Table lookups of a
molecule, keyed by element and derived valence state (§4.3); one entry
per atom, `none` when the valence state is not parametrized. -/
def paramsOf (m : Molecule) : List (Option (ℚ × ℚ × ℚ)) :=
  (List.range m.array_length).map
    (fun i => enParameters (m.element.getD i "") (degreeOf m.bonds i))

/-- Modelled from the spec: the Charge State (§3), the iteration working
set: the (read-only) molecule, its parameter lookups, the per-atom
working charges and the current damping factor. -/
structure ChargeState where
  mol : Molecule
  params : List (Option (ℚ × ℚ × ℚ))
  work : List ℚ
  damp : ℚ
deriving Repr

/-- One iteration step on the working set: the working charges are
updated synchronously and the damping factor halves (§4.4); the
molecule and its parameters are left untouched. -/
def stepState (s : ChargeState) : ChargeState :=
  { s with
    work := stepWork s.mol.element s.params s.mol.bonds s.damp s.work
    damp := s.damp / 2 }

/-- The fixed number of iteration steps: a state machine with exactly
`iteration_step_num` sequential states, no early exit (§4.4). -/
def iterState : Nat → ChargeState → ChargeState
  | 0, s => s
  | n + 1, s => iterState n (stepState s)

/-- Modelled from the spec: the initial working set (§4.4 step 1): each
working charge starts at the atom's formal charge, the damping factor of
the first step is 1/2. -/
def initState (m : Molecule) : ChargeState :=
  { mol := m
    params := paramsOf m
    work := List.map (fun c : ℤ => (c : ℚ)) m.charge
    damp := 1/2 }

/-- Run the charge iterator on a molecule for `steps` steps. -/
def runState (m : Molecule) (steps : Nat) : ChargeState :=
  iterState steps (initState m)

/-- A user-visible warning identifying the element and derived valence
state (binding-partner count) of an unparametrized covalent atom (§4.5). -/
structure Warning where
  element : String
  valence : Nat
deriving DecidableEq, Repr

/-- Modelled from the spec: the warnings emitted by one computation, one
per covalently bonded atom without a Parameter Table entry (§4.5). -/
def warningsOf (m : Molecule) : List Warning :=
  (List.range m.array_length).filterMap (fun i =>
    let d := degreeOf m.bonds i
    if 0 < d ∧ enParameters (m.element.getD i "") d = none
    then some ⟨m.element.getD i "", d⟩ else none)

/-- Modelled from the spec: the Charge Assembler's per-atom policy
(§4.5): a parametrized atom gets its iterated working charge; an atom
with no covalent bonds (the non-covalent ion fallback of §4.3) gets its
formal charge unchanged; a covalently bonded atom without a Parameter
Table entry gets NaN, encoded as `none`. -/
def assembleCharges (m : Molecule) (steps : Nat) : List (Option ℚ) :=
  (List.range m.array_length).map (fun i =>
    match enParameters (m.element.getD i "") (degreeOf m.bonds i) with
    | some _ => some ((runState m steps).work.getD i 0)
    | none =>
      if degreeOf m.bonds i = 0 then some ((m.charge.getD i 0 : ℤ) : ℚ)
      else none)

/-- Modelled from the spec: the structural (fatal) error taxonomy (§7):
a formal-charge array whose length differs from the atom count, or a
bond referencing an out-of-range atom index. -/
inductive StructuralError where
  | chargeLengthMismatch : StructuralError
  | bondIndexOutOfRange : StructuralError
deriving DecidableEq, Repr

instance : DecidableEq (Except StructuralError (List (Option ℚ) × List Warning)) :=
  fun a b =>
    match a, b with
    | .error e₁, .error e₂ =>
      decidable_of_iff (e₁ = e₂) (by rw [Except.error.injEq])
    | .ok v₁, .ok v₂ =>
      decidable_of_iff (v₁ = v₂) (by rw [Except.ok.injEq])
    | .error _, .ok _ => .isFalse (by intro h; cases h)
    | .ok _, .error _ => .isFalse (by intro h; cases h)

/-- Modelled from the spec: the core public operation
`compute_partial_charges(molecule, iteration_step_num = 6)` (§6): after
fail-fast structural validation (§7) it returns one charge per atom
(`none` encodes NaN) together with the emitted warnings. -/
def computePartialCharges (m : Molecule) (steps : Nat := 6) :
    Except StructuralError (List (Option ℚ) × List Warning) :=
  if m.charge.length ≠ m.array_length then .error .chargeLengthMismatch
  else if m.bonds.any (fun b => m.array_length ≤ b.1 || m.array_length ≤ b.2)
  then .error .bondIndexOutOfRange
  else .ok (assembleCharges m steps, warningsOf m)

/-- The charge list of a successful computation (empty on error). -/
def okCharges (m : Molecule) (steps : Nat := 6) : List (Option ℚ) :=
  match computePartialCharges m steps with
  | .ok (cs, _) => cs
  | .error _ => []

/-- The warning list of a successful computation (empty on error). -/
def okWarnings (m : Molecule) (steps : Nat := 6) : List Warning :=
  match computePartialCharges m steps with
  | .ok (_, ws) => ws
  | .error _ => []

/-- The charge of atom `i`, with `none` (NaN) collapsed to 0. -/
def chargeD (m : Molecule) (steps i : Nat) : ℚ :=
  ((okCharges m steps).getD i none).getD 0

/-- `q` lies within absolute tolerance `tol` of `target`. -/
def within (q target tol : ℚ) : Prop :=
  target - tol ≤ q ∧ q ≤ target + tol

instance (q target tol : ℚ) : Decidable (within q target tol) :=
  inferInstanceAs (Decidable (_ ∧ _))

/-- The canonical (sorted) representation of an undirected bond: the
bond set is a set of unordered atom-index pairs (§3), so two pairs
denote the same bond when their canonical forms agree. -/
def canon (b : Nat × Nat) : Nat × Nat :=
  if b.1 ≤ b.2 then b else (b.2, b.1)

/-- Methane, as built in the test file: one carbon single-bonded to four
hydrogens, all formal charges 0. -/
def methane : Molecule :=
  { element := ["C", "H", "H", "H", "H"]
    charge := [0, 0, 0, 0, 0]
    bonds := [(0, 1), (0, 2), (0, 3), (0, 4)] }

/-- Methane whose carbon carries formal charge +1 (`pos_methane` in the
test file). -/
def posMethane : Molecule := { methane with charge := [1, 0, 0, 0, 0] }

/-- Ethane, as built in the test file. -/
def ethane : Molecule :=
  { element := ["C", "C", "H", "H", "H", "H", "H", "H"]
    charge := [0, 0, 0, 0, 0, 0, 0, 0]
    bonds := [(0, 1), (0, 2), (0, 3), (0, 4), (1, 5), (1, 6), (1, 7)] }

/-- The nontrivial graph automorphism of ethane: the two carbons swap
and each methyl hydrogen swaps with its counterpart. -/
def ethaneSwap : Equiv.Perm ℕ :=
  (Equiv.swap 0 1).trans
    ((Equiv.swap 2 5).trans ((Equiv.swap 3 6).trans (Equiv.swap 4 7)))

/-- Fluoromethane, as built in the test file. -/
def fluoromethane : Molecule :=
  { element := ["C", "F", "H", "H", "H"]
    charge := [0, 0, 0, 0, 0]
    bonds := [(0, 1), (0, 2), (0, 3), (0, 4)] }

/-- Difluoromethane, as built in the test file. -/
def difluoromethane : Molecule :=
  { element := ["C", "F", "F", "H", "H"]
    charge := [0, 0, 0, 0, 0]
    bonds := [(0, 1), (0, 2), (0, 3), (0, 4)] }

/-- Trifluoromethane, as built in the test file. -/
def trifluoromethane : Molecule :=
  { element := ["C", "F", "F", "F", "H"]
    charge := [0, 0, 0, 0, 0]
    bonds := [(0, 1), (0, 2), (0, 3), (0, 4)] }

/-- Tetrafluoromethane, as built in the test file. -/
def tetrafluoromethane : Molecule :=
  { element := ["C", "F", "F", "F", "F"]
    charge := [0, 0, 0, 0, 0]
    bonds := [(0, 1), (0, 2), (0, 3), (0, 4)] }

/-- The fictitious molecule of the test file: a central carbon
double-bonded to one sulfur (whose valence state, a single binding
partner, is not parametrized) and single-bonded to two hydrogens. -/
def fictitiousMolecule : Molecule :=
  { element := ["C", "S", "H", "H"]
    charge := [0, 0, 0, 0]
    bonds := [(0, 1), (0, 2), (0, 3)] }

/-- A lone sodium ion with formal charge +1 and an empty bond list
(`sodium_array` in the test file). -/
def sodiumArray : Molecule :=
  { element := ["NA"], charge := [1], bonds := [] }

/-- C6: for methane (one carbon single-bonded to four hydrogens, all
formal charges 0), `compute_partial_charges` at the default 6 iteration
steps returns a carbon charge equal to -0.078 within absolute tolerance
1e-2 (and the carbon charge is not NaN). -/
theorem methane_carbon_reference_charge :
    ((okCharges methane 6).getD 0 none).isSome = true ∧
    within (chargeD methane 6 0) (-(78/1000)) (1/100) := by decide

/-- C5: at default 6 iteration steps the carbon charge increases
strictly monotonically with the number of fluorine substituents, and
each value lies within tolerance 1e-2 of its published reference
(0.079, 0.23, 0.38, 0.561). -/
theorem fluorine_series_monotone :
    within (chargeD fluoromethane 6 0) (79/1000) (1/100) ∧
    within (chargeD difluoromethane 6 0) (23/100) (1/100) ∧
    within (chargeD trifluoromethane 6 0) (38/100) (1/100) ∧
    within (chargeD tetrafluoromethane 6 0) (561/1000) (1/100) ∧
    chargeD fluoromethane 6 0 < chargeD difluoromethane 6 0 ∧
    chargeD difluoromethane 6 0 < chargeD trifluoromethane 6 0 ∧
    chargeD trifluoromethane 6 0 < chargeD tetrafluoromethane 6 0 := by decide

/-- C4: for methane whose carbon carries formal charge +1,
`compute_partial_charges` at `iteration_step_num = 6` returns a carbon
charge strictly below 1 and strictly above the carbon charge of neutral
methane at the same step count. -/
theorem pos_formal_charge_between :
    ((okCharges posMethane 6).getD 0 none).isSome = true ∧
    chargeD posMethane 6 0 < 1 ∧
    chargeD methane 6 0 < chargeD posMethane 6 0 := by decide

/-- C2: the fictitious carbon–sulfur molecule raises exactly one
warning (identifying sulfur in its one-partner valence state), returns
NaN for the sulfur atom, a non-NaN charge for every other atom, and the
carbon charge is strictly below each hydrogen charge. -/
theorem valence_state_not_parametrized :
    okWarnings fictitiousMolecule 6 = [⟨"S", 1⟩] ∧
    (okCharges fictitiousMolecule 6).getD 1 none = none ∧
    ((okCharges fictitiousMolecule 6).getD 0 none).isSome = true ∧
    ((okCharges fictitiousMolecule 6).getD 2 none).isSome = true ∧
    ((okCharges fictitiousMolecule 6).getD 3 none).isSome = true ∧
    chargeD fictitiousMolecule 6 0 < chargeD fictitiousMolecule 6 2 ∧
    chargeD fictitiousMolecule 6 0 < chargeD fictitiousMolecule 6 3 := by decide

/-- C3: a lone sodium ion with formal charge +1 and an empty bond list
gets partial charge exactly 1 (its formal charge, no iteration applied)
and zero warnings, for every `iteration_step_num`. -/
theorem correct_output_ions (steps : Nat) :
    computePartialCharges sodiumArray steps = .ok ([some 1], []) := rfl

/-- Instance of `correct_output_ions` at `iteration_step_num = 1`, the
step count used by the test. -/
theorem correct_output_ions_witness :
    computePartialCharges sodiumArray 1 = .ok ([some 1], []) :=
  correct_output_ions 1

/-! ### Basic facts about the iteration state -/

theorem stepWork_length (E : List String) (P : List (Option (ℚ × ℚ × ℚ)))
    (bonds : List (Nat × Nat)) (damp : ℚ) (w : List ℚ) :
    (stepWork E P bonds damp w).length = w.length := by
  simp [stepWork]

theorem iterState_mol (n : Nat) (s : ChargeState) :
    (iterState n s).mol = s.mol := by
  induction n generalizing s with
  | zero => rfl
  | succ k ih => exact ih (stepState s)

theorem iterState_params (n : Nat) (s : ChargeState) :
    (iterState n s).params = s.params := by
  induction n generalizing s with
  | zero => rfl
  | succ k ih => exact ih (stepState s)

theorem iterState_work_length (n : Nat) (s : ChargeState) :
    (iterState n s).work.length = s.work.length := by
  induction n generalizing s with
  | zero => rfl
  | succ k ih =>
    calc (iterState k (stepState s)).work.length
        = (stepState s).work.length := ih (stepState s)
      _ = s.work.length := stepWork_length _ _ _ _ _

theorem getD_map_range {α : Type} (f : Nat → α) {n i : Nat} (h : i < n) (d : α) :
    ((List.range n).map f).getD i d = f i := by
  have hlen : i < ((List.range n).map f).length := by simp [h]
  rw [List.getD_eq_getElem _ _ hlen]
  simp

theorem map_getD_self (w : List ℚ) :
    (List.range w.length).map (fun i => w.getD i 0) = w := by
  apply List.ext_getElem
  · simp
  · intro i h1 h2
    simp only [List.getElem_map, List.getElem_range]
    exact List.getD_eq_getElem w 0 h2

theorem sum_map_range (n : Nat) (f : Nat → ℚ) :
    ((List.range n).map f).sum = ∑ i ∈ Finset.range n, f i := rfl

/-! ### Claim C7: purity -/

/-- C7: the computation is a pure function of the molecule: running the
iteration never writes the molecule (in particular the formal-charge
array is unchanged), and a second call on the molecule recovered from a
completed run returns the same result as a call on the original. -/
theorem compute_is_pure (m : Molecule) (k₁ k₂ : Nat) :
    (runState m k₁).mol = m ∧
    (runState m k₁).mol.charge = m.charge ∧
    computePartialCharges ((runState m k₁).mol) k₂ = computePartialCharges m k₂ := by
  have h : (runState m k₁).mol = m := iterState_mol k₁ (initState m)
  exact ⟨h, by rw [h], by rw [h]⟩

/-- Instance of `compute_is_pure` on methane at the default step count. -/
theorem compute_is_pure_witness :
    (runState methane 6).mol = methane ∧
    (runState methane 6).mol.charge = methane.charge ∧
    computePartialCharges ((runState methane 6).mol) 6 = computePartialCharges methane 6 :=
  compute_is_pure methane 6 6

/-! ### Claim C9: structural errors are fail-fast -/

/-- C9: whenever the formal-charge array length differs from the atom
count or some bond references an out-of-range atom index,
`compute_partial_charges` returns a structural error and no charges. -/
theorem structural_error_fail_fast (m : Molecule) (steps : Nat)
    (h : m.charge.length ≠ m.array_length ∨
      ∃ b ∈ m.bonds, m.array_length ≤ b.1 ∨ m.array_length ≤ b.2) :
    ∃ e, computePartialCharges m steps = .error e := by
  unfold computePartialCharges
  by_cases hlen : m.charge.length ≠ m.array_length
  · exact ⟨.chargeLengthMismatch, by rw [if_pos hlen]⟩
  · rcases h with h | h
    · exact absurd h hlen
    · have hany : (m.bonds.any
          (fun b => m.array_length ≤ b.1 || m.array_length ≤ b.2)) = true := by
        rw [List.any_eq_true]
        obtain ⟨b, hb, hc⟩ := h
        refine ⟨b, hb, ?_⟩
        simpa using hc
      exact ⟨.bondIndexOutOfRange, by rw [if_neg hlen, if_pos hany]⟩

/-- A malformed single-atom molecule: its formal-charge array is empty
while it has one atom. -/
def malformedMolecule : Molecule :=
  { element := ["C"], charge := [], bonds := [] }

/-- Instance of `structural_error_fail_fast` on a concrete malformed
molecule. -/
theorem structural_error_fail_fast_witness :
    ∃ e, computePartialCharges malformedMolecule 6 = .error e :=
  structural_error_fail_fast malformedMolecule 6 (Or.inl (by decide))

/-! ### Charge transfer along one bond -/

theorem flow_self (E : List String) (P : List (Option (ℚ × ℚ × ℚ)))
    (w : List ℚ) (j : Nat) : flow E P w j j = 0 := by
  unfold flow
  cases P.getD j none with
  | none => rfl
  | some p => simp

theorem flow_none_left (E : List String) (P : List (Option (ℚ × ℚ × ℚ)))
    (w : List ℚ) (j k : Nat) (h : P.getD j none = none) :
    flow E P w j k = 0 := by
  unfold flow
  rw [h]

theorem flow_none_right (E : List String) (P : List (Option (ℚ × ℚ × ℚ)))
    (w : List ℚ) (j k : Nat) (h : P.getD k none = none) :
    flow E P w j k = 0 := by
  unfold flow
  rw [h]
  cases P.getD j none <;> rfl

theorem flow_eq_of_some (E : List String) (P : List (Option (ℚ × ℚ × ℚ)))
    (w : List ℚ) {j k : Nat} {pj pk : ℚ × ℚ × ℚ}
    (hj : P.getD j none = some pj) (hk : P.getD k none = some pk) :
    flow E P w j k =
      if chi pk (w.getD k 0) < chi pj (w.getD j 0)
      then -((chi pj (w.getD j 0) - chi pk (w.getD k 0)) / chiPlus (E.getD k "") pk)
      else if chi pj (w.getD j 0) < chi pk (w.getD k 0)
      then (chi pk (w.getD k 0) - chi pj (w.getD j 0)) / chiPlus (E.getD j "") pj
      else 0 := by
  unfold flow
  rw [hj, hk]

theorem flow_antisymm (E : List String) (P : List (Option (ℚ × ℚ × ℚ)))
    (w : List ℚ) (j k : Nat) : flow E P w k j = -flow E P w j k := by
  cases hj : P.getD j none with
  | none => rw [flow_none_left E P w j k hj, flow_none_right E P w k j hj, neg_zero]
  | some pj =>
    cases hk : P.getD k none with
    | none => rw [flow_none_left E P w k j hk, flow_none_right E P w j k hk, neg_zero]
    | some pk =>
      rw [flow_eq_of_some E P w hk hj, flow_eq_of_some E P w hj hk]
      rcases lt_trichotomy (chi pj (w.getD j 0)) (chi pk (w.getD k 0)) with h | h | h
      · rw [if_pos h, if_neg (asymm h), if_pos h]
      · rw [if_neg (h ▸ lt_irrefl _), if_neg (h ▸ lt_irrefl _),
          if_neg (h ▸ lt_irrefl _), if_neg (h ▸ lt_irrefl _), neg_zero]
      · rw [if_neg (asymm h), if_pos h, if_pos h, neg_neg]

theorem bondDelta_split (E : List String) (P : List (Option (ℚ × ℚ × ℚ)))
    (w : List ℚ) (b : Nat × Nat) (i : Nat) :
    bondDelta E P w b i =
      (if b.1 = i then flow E P w i b.2 else 0) +
      (if b.2 = i ∧ ¬b.1 = i then flow E P w i b.1 else 0) := by
  unfold bondDelta
  by_cases h1 : b.1 = i <;> by_cases h2 : b.2 = i <;> simp [h1, h2]

theorem sum_range_bondDelta (E : List String) (P : List (Option (ℚ × ℚ × ℚ)))
    (w : List ℚ) (b : Nat × Nat) {n : Nat} (hP : P.length = n) :
    ∑ i ∈ Finset.range n, bondDelta E P w b i = 0 := by
  simp only [bondDelta_split E P w b]
  rw [Finset.sum_add_distrib, Finset.sum_ite_eq]
  have hsplit : ∀ i, (if b.2 = i ∧ ¬b.1 = i then flow E P w i b.1 else 0)
      = if b.2 = i then (if ¬b.1 = i then flow E P w i b.1 else 0) else 0 := by
    intro i
    by_cases h : b.2 = i <;> simp [h]
  simp only [hsplit]
  rw [Finset.sum_ite_eq]
  simp only [Finset.mem_range]
  have hdef : ∀ j : Nat, ¬j < n → P.getD j none = none := by
    intro j hj
    exact List.getD_eq_default _ _ (hP ▸ Nat.not_lt.mp hj)
  by_cases h1 : b.1 < n <;> by_cases h2 : b.2 < n
  · by_cases h12 : b.1 = b.2
    · simp [h1, h2, h12, flow_self]
    · have h21 : ¬b.1 = b.2 → (if ¬b.1 = b.2 then flow E P w b.2 b.1 else 0)
          = flow E P w b.2 b.1 := fun h => if_pos h
      rw [if_pos h1, if_pos h2, h21 h12, flow_antisymm]
      ring
  · rw [if_pos h1, if_neg h2, flow_none_right E P w b.1 b.2 (hdef _ h2), add_zero]
  · by_cases h12 : b.1 = b.2
    · exact absurd (h12 ▸ h2) h1
    · rw [if_neg h1, if_pos h2, if_pos h12]
      rw [flow_none_right E P w b.2 b.1 (hdef _ h1), zero_add]
  · simp [h1, h2]

theorem sum_finset_list_sum (s : Finset ℕ) (l : List (Nat × Nat))
    (g : Nat × Nat → ℕ → ℚ) :
    ∑ i ∈ s, (l.map (fun b => g b i)).sum = (l.map (fun b => ∑ i ∈ s, g b i)).sum := by
  induction l with
  | nil => simp
  | cons b t ih => simp [Finset.sum_add_distrib, ih]

theorem sum_stepWork (E : List String) (P : List (Option (ℚ × ℚ × ℚ)))
    (bonds : List (Nat × Nat)) (damp : ℚ) (w : List ℚ)
    (hP : P.length = w.length) :
    (stepWork E P bonds damp w).sum = w.sum := by
  unfold stepWork
  rw [sum_map_range, Finset.sum_add_distrib]
  have h1 : ∑ i ∈ Finset.range w.length, w.getD i 0 = w.sum := by
    rw [← sum_map_range, map_getD_self]
  have h2 : ∑ i ∈ Finset.range w.length, damp * bondDeltas E P bonds w i = 0 := by
    rw [← Finset.mul_sum]
    have hz : ∑ i ∈ Finset.range w.length, bondDeltas E P bonds w i = 0 := by
      unfold bondDeltas
      rw [sum_finset_list_sum]
      apply List.sum_eq_zero
      intro x hx
      obtain ⟨b, hb, rfl⟩ := List.mem_map.mp hx
      exact sum_range_bondDelta E P w b hP
    rw [hz, mul_zero]
  rw [h1, h2, add_zero]

theorem iterState_work_sum (n : Nat) (s : ChargeState)
    (hP : s.params.length = s.work.length) :
    (iterState n s).work.sum = s.work.sum := by
  induction n generalizing s with
  | zero => rfl
  | succ k ih =>
    have hP' : (stepState s).params.length = (stepState s).work.length := by
      simpa [stepState, stepWork_length] using hP
    calc (iterState k (stepState s)).work.sum
        = (stepState s).work.sum := ih (stepState s) hP'
      _ = s.work.sum := sum_stepWork _ _ _ _ _ hP

theorem filterMap_id_map_some (l : List ℕ) (g : ℕ → ℚ) :
    ((l.map (fun i => some (g i))).filterMap id) = l.map g := by
  induction l with
  | nil => rfl
  | cons a t ih => simp [ih]

theorem initState_work (m : Molecule) :
    (initState m).work = List.map (fun c : ℤ => (c : ℚ)) m.charge := rfl

theorem initState_params (m : Molecule) :
    (initState m).params = paramsOf m := rfl

theorem paramsOf_length (m : Molecule) :
    (paramsOf m).length = m.array_length := by
  unfold paramsOf
  rw [List.length_map, List.length_range]

/-! ### Claim C1: total charge invariant -/

/-- C1: for every well-formed molecule composed exclusively of
parametrized, neutral atoms, every returned charge is non-NaN and the
sum of the charges returned by `compute_partial_charges` equals the sum
of the formal charges, i.e. exactly zero (hence within tolerance 1e-15). -/
theorem total_charge_conservation (m : Molecule) (steps : Nat)
    (hlen : m.charge.length = m.array_length)
    (hbr : ∀ b ∈ m.bonds, b.1 < m.array_length ∧ b.2 < m.array_length)
    (hparam : ∀ i, i < m.array_length →
      enParameters (m.element.getD i "") (degreeOf m.bonds i) ≠ none)
    (hneutral : ∀ c ∈ m.charge, c = 0) :
    (∀ o ∈ okCharges m steps, o.isSome) ∧
    ((okCharges m steps).filterMap id).sum = 0 := by
  have hany : (m.bonds.any
      (fun b => m.array_length ≤ b.1 || m.array_length ≤ b.2)) = false := by
    rw [List.any_eq_false]
    intro b hb
    simp only [Bool.or_eq_true, decide_eq_true_eq, not_or, not_le]
    exact ⟨(hbr b hb).1, (hbr b hb).2⟩
  have hcc : computePartialCharges m steps
      = .ok (assembleCharges m steps, warningsOf m) := by
    unfold computePartialCharges
    rw [if_neg (fun hc => hc hlen), if_neg (by simp [hany])]
  have hok : okCharges m steps = assembleCharges m steps := by
    unfold okCharges
    rw [hcc]
  have hassemble : assembleCharges m steps =
      (List.range m.array_length).map
        (fun i => some ((runState m steps).work.getD i 0)) := by
    simp only [assembleCharges]
    apply List.map_congr_left
    intro i hi
    rw [List.mem_range] at hi
    cases hcase : enParameters (m.element.getD i "") (degreeOf m.bonds i) with
    | some p => rfl
    | none => exact absurd hcase (hparam i hi)
  constructor
  · rw [hok, hassemble]
    intro o ho
    obtain ⟨i, _, rfl⟩ := List.mem_map.mp ho
    rfl
  · rw [hok, hassemble, filterMap_id_map_some]
    have hwl : (runState m steps).work.length = m.charge.length := by
      unfold runState
      rw [iterState_work_length, initState_work, List.length_map]
    have hn : m.array_length = (runState m steps).work.length := by
      rw [hwl, hlen]
    rw [hn, map_getD_self]
    have hsum : (runState m steps).work.sum = (initState m).work.sum := by
      unfold runState
      apply iterState_work_sum
      rw [initState_params, initState_work, paramsOf_length, List.length_map]
      exact hlen.symm
    rw [hsum, initState_work]
    apply List.sum_eq_zero
    intro x hx
    obtain ⟨c, hc, rfl⟩ := List.mem_map.mp hx
    rw [hneutral c hc]
    simp

/-- Instance of `total_charge_conservation` on methane. -/
theorem total_charge_conservation_witness :
    (∀ o ∈ okCharges methane 6, o.isSome) ∧
    ((okCharges methane 6).filterMap id).sum = 0 :=
  total_charge_conservation methane 6 (by decide) (by decide) (by decide)
    (by decide)

/-! ### Claim C8: bond enumeration order independence -/

theorem degreeOf_perm {bonds bonds' : List (Nat × Nat)}
    (h : bonds.Perm bonds') (i : Nat) :
    degreeOf bonds' i = degreeOf bonds i :=
  (h.countP_eq _).symm

theorem bondDeltas_perm (E : List String) (P : List (Option (ℚ × ℚ × ℚ)))
    {bonds bonds' : List (Nat × Nat)} (h : bonds.Perm bonds')
    (w : List ℚ) (i : Nat) :
    bondDeltas E P bonds' w i = bondDeltas E P bonds w i :=
  ((h.map _).sum_eq).symm

theorem perm_any {l l' : List (Nat × Nat)} (h : l.Perm l')
    (p : Nat × Nat → Bool) : l'.any p = l.any p := by
  cases hc : l.any p
  · rw [List.any_eq_false] at hc ⊢
    intro x hx
    exact hc x (h.mem_iff.mpr hx)
  · rw [List.any_eq_true] at hc ⊢
    obtain ⟨x, hx, hpx⟩ := hc
    exact ⟨x, h.mem_iff.mp hx, hpx⟩

theorem paramsOf_perm (m : Molecule) {bonds' : List (Nat × Nat)}
    (h : m.bonds.Perm bonds') :
    paramsOf { m with bonds := bonds' } = paramsOf m := by
  unfold paramsOf
  apply List.map_congr_left
  intro i _
  have hd : degreeOf ({ m with bonds := bonds' } : Molecule).bonds i
      = degreeOf m.bonds i := degreeOf_perm h i
  rw [hd]

theorem iterState_work_bonds_perm (steps : Nat) (mol mol' : Molecule)
    (hE : mol'.element = mol.element) (hperm : mol.bonds.Perm mol'.bonds)
    (P : List (Option (ℚ × ℚ × ℚ))) (w : List ℚ) (damp : ℚ) :
    (iterState steps ⟨mol', P, w, damp⟩).work
      = (iterState steps ⟨mol, P, w, damp⟩).work := by
  induction steps generalizing w damp with
  | zero => rfl
  | succ k ih =>
    show (iterState k (stepState ⟨mol', P, w, damp⟩)).work
      = (iterState k (stepState ⟨mol, P, w, damp⟩)).work
    have hstep : stepWork mol'.element P mol'.bonds damp w
        = stepWork mol.element P mol.bonds damp w := by
      unfold stepWork
      apply List.map_congr_left
      intro i _
      rw [hE, bondDeltas_perm _ _ hperm]
    have h1 : stepState (⟨mol', P, w, damp⟩ : ChargeState)
        = ⟨mol', P, stepWork mol'.element P mol'.bonds damp w, damp / 2⟩ := rfl
    have h2 : stepState (⟨mol, P, w, damp⟩ : ChargeState)
        = ⟨mol, P, stepWork mol.element P mol.bonds damp w, damp / 2⟩ := rfl
    rw [h1, h2, hstep]
    exact ih _ _

/-- C8: within each step all per-bond deltas are applied synchronously
from the previous snapshot, so the result of `compute_partial_charges`
is identical under any permutation of the bond enumeration order. -/
theorem bond_enumeration_order_independent (m : Molecule)
    (bonds' : List (Nat × Nat)) (steps : Nat) (h : m.bonds.Perm bonds') :
    computePartialCharges { m with bonds := bonds' } steps
      = computePartialCharges m steps := by
  have hb : ({ m with bonds := bonds' } : Molecule).bonds = bonds' := rfl
  have hperm : m.bonds.Perm ({ m with bonds := bonds' } : Molecule).bonds :=
    hb ▸ h
  have he : ({ m with bonds := bonds' } : Molecule).element = m.element := rfl
  have hc : ({ m with bonds := bonds' } : Molecule).charge = m.charge := rfl
  have hAL : ({ m with bonds := bonds' } : Molecule).array_length
      = m.array_length := rfl
  have hdeg : ∀ i, degreeOf ({ m with bonds := bonds' } : Molecule).bonds i
      = degreeOf m.bonds i := fun i => degreeOf_perm hperm i
  have hwork : (runState { m with bonds := bonds' } steps).work
      = (runState m steps).work := by
    unfold runState
    have hinit : initState { m with bonds := bonds' }
        = ⟨{ m with bonds := bonds' }, paramsOf m,
            List.map (fun c : ℤ => (c : ℚ)) m.charge, 1/2⟩ := by
      unfold initState
      rw [paramsOf_perm m h]
    rw [hinit]
    exact iterState_work_bonds_perm steps m { m with bonds := bonds' } he hperm _ _ _
  have hassemble : assembleCharges { m with bonds := bonds' } steps
      = assembleCharges m steps := by
    unfold assembleCharges
    rw [hAL]
    apply List.map_congr_left
    intro i _
    simp only [hdeg, he, hc, hwork]
  have hwarn : warningsOf { m with bonds := bonds' } = warningsOf m := by
    unfold warningsOf
    rw [hAL]
    congr 1
    funext i
    simp only [hdeg, he]
  unfold computePartialCharges
  simp only [hc, hAL, hb, hassemble, hwarn, perm_any h]

/-- Instance of `bond_enumeration_order_independent`: methane with its
bond list reversed computes the same charges. -/
theorem bond_enumeration_order_independent_witness :
    computePartialCharges { methane with bonds := [(0, 4), (0, 3), (0, 2), (0, 1)] } 6
      = computePartialCharges methane 6 :=
  bond_enumeration_order_independent methane [(0, 4), (0, 3), (0, 2), (0, 1)] 6
    (by decide)

/-! ### Claim C10: graph automorphisms give equal charges -/

theorem incident_canon (x : Nat) (b : Nat × Nat) :
    ((canon b).1 == x || (canon b).2 == x) = (b.1 == x || b.2 == x) := by
  unfold canon
  split_ifs with h
  · rfl
  · exact Bool.or_comm _ _

theorem degreeOf_canon (bonds : List (Nat × Nat)) (i : Nat) :
    degreeOf (bonds.map canon) i = degreeOf bonds i := by
  unfold degreeOf
  rw [List.countP_map]
  apply List.countP_congr
  intro b _
  exact (incident_canon i b) ▸ Iff.rfl

theorem beq_pi (π : Equiv.Perm ℕ) (a b : ℕ) : (π a == π b) = (a == b) := by
  by_cases h : a = b
  · simp [h]
  · have h' : ¬π a = π b := fun hh => h (π.injective hh)
    simp [h, h']

theorem degreeOf_map_pi (π : Equiv.Perm ℕ) (bonds : List (Nat × Nat)) (i : Nat) :
    degreeOf (bonds.map (fun b => (π b.1, π b.2))) (π i) = degreeOf bonds i := by
  unfold degreeOf
  rw [List.countP_map]
  apply List.countP_congr
  intro b _
  show ((π b.1 == π i || π b.2 == π i) = true) ↔ _
  rw [beq_pi, beq_pi]

theorem degreeOf_pi (bonds : List (Nat × Nat)) (π : Equiv.Perm ℕ)
    (hB : (bonds.map (fun b => canon (π b.1, π b.2))).Perm (bonds.map canon))
    (i : Nat) : degreeOf bonds (π i) = degreeOf bonds i := by
  have h1 : bonds.map (fun b => canon (π b.1, π b.2))
      = (bonds.map (fun b => (π b.1, π b.2))).map canon :=
    (List.map_map canon (fun b : Nat × Nat => (π b.1, π b.2)) bonds).symm
  calc degreeOf bonds (π i)
      = degreeOf (bonds.map canon) (π i) := (degreeOf_canon bonds (π i)).symm
    _ = degreeOf (bonds.map (fun b => canon (π b.1, π b.2))) (π i) :=
        degreeOf_perm hB (π i)
    _ = degreeOf ((bonds.map (fun b => (π b.1, π b.2))).map canon) (π i) := by
        rw [h1]
    _ = degreeOf (bonds.map (fun b => (π b.1, π b.2))) (π i) :=
        degreeOf_canon _ (π i)
    _ = degreeOf bonds i := degreeOf_map_pi π bonds i

theorem paramsOf_getD (m : Molecule) {i : Nat} (hi : i < m.array_length) :
    (paramsOf m).getD i none
      = enParameters (m.element.getD i "") (degreeOf m.bonds i) := by
  unfold paramsOf
  exact getD_map_range _ hi none

theorem bondDelta_swap (E : List String) (P : List (Option (ℚ × ℚ × ℚ)))
    (w : List ℚ) (j k i : Nat) :
    bondDelta E P w (k, j) i = bondDelta E P w (j, k) i := by
  unfold bondDelta
  by_cases h1 : j = i <;> by_cases h2 : k = i <;> simp [h1, h2]

theorem bondDelta_canon (E : List String) (P : List (Option (ℚ × ℚ × ℚ)))
    (w : List ℚ) (b : Nat × Nat) (i : Nat) :
    bondDelta E P w (canon b) i = bondDelta E P w b i := by
  unfold canon
  split_ifs with h
  · rfl
  · exact bondDelta_swap E P w b.1 b.2 i

theorem flow_equivariant (E : List String) (P : List (Option (ℚ × ℚ × ℚ)))
    (w : List ℚ) (π : Equiv.Perm ℕ) {a b : Nat}
    (hPa : P.getD (π a) none = P.getD a none)
    (hPb : P.getD (π b) none = P.getD b none)
    (hwa : w.getD (π a) 0 = w.getD a 0)
    (hwb : w.getD (π b) 0 = w.getD b 0)
    (hEa : E.getD (π a) "" = E.getD a "")
    (hEb : E.getD (π b) "" = E.getD b "") :
    flow E P w (π a) (π b) = flow E P w a b := by
  unfold flow
  rw [hPa, hPb, hwa, hwb, hEa, hEb]

theorem bondDelta_pi (E : List String) (P : List (Option (ℚ × ℚ × ℚ)))
    (w : List ℚ) (π : Equiv.Perm ℕ) {n : Nat}
    (hP : ∀ x, x < n → P.getD (π x) none = P.getD x none)
    (hw : ∀ x, x < n → w.getD (π x) 0 = w.getD x 0)
    (hE : ∀ x, x < n → E.getD (π x) "" = E.getD x "")
    {j k i : Nat} (hj : j < n) (hk : k < n) (hi : i < n) :
    bondDelta E P w (π j, π k) (π i) = bondDelta E P w (j, k) i := by
  show (if π j = π i then flow E P w (π i) (π k)
      else if π k = π i then flow E P w (π i) (π j) else 0)
    = (if j = i then flow E P w i k
      else if k = i then flow E P w i j else 0)
  by_cases h1 : j = i
  · subst h1
    rw [if_pos rfl, if_pos rfl]
    exact flow_equivariant E P w π (hP j hj) (hP k hk) (hw j hj) (hw k hk)
      (hE j hj) (hE k hk)
  · rw [if_neg (fun hh => h1 (π.injective hh)), if_neg h1]
    by_cases h2 : k = i
    · subst h2
      rw [if_pos rfl, if_pos rfl]
      exact flow_equivariant E P w π (hP k hk) (hP j hj) (hw k hk) (hw j hj)
        (hE k hk) (hE j hj)
    · rw [if_neg (fun hh => h2 (π.injective hh)), if_neg h2]

theorem bondDeltas_pi (E : List String) (P : List (Option (ℚ × ℚ × ℚ)))
    (bonds : List (Nat × Nat)) (w : List ℚ) (π : Equiv.Perm ℕ) {n : Nat}
    (hbr : ∀ b ∈ bonds, b.1 < n ∧ b.2 < n)
    (hB : (bonds.map (fun b => canon (π b.1, π b.2))).Perm (bonds.map canon))
    (hP : ∀ x, x < n → P.getD (π x) none = P.getD x none)
    (hw : ∀ x, x < n → w.getD (π x) 0 = w.getD x 0)
    (hE : ∀ x, x < n → E.getD (π x) "" = E.getD x "")
    {i : Nat} (hi : i < n) :
    bondDeltas E P bonds w (π i) = bondDeltas E P bonds w i := by
  unfold bondDeltas
  have step1 : (bonds.map (fun b => bondDelta E P w b (π i))).sum
      = ((bonds.map canon).map (fun b => bondDelta E P w b (π i))).sum := by
    rw [List.map_map]
    exact congrArg List.sum
      (List.map_congr_left (fun b _ => (bondDelta_canon E P w b (π i)).symm))
  have step2 : ((bonds.map canon).map (fun b => bondDelta E P w b (π i))).sum
      = ((bonds.map (fun b => canon (π b.1, π b.2))).map
          (fun b => bondDelta E P w b (π i))).sum :=
    ((hB.map _).sum_eq).symm
  have step3 : ((bonds.map (fun b => canon (π b.1, π b.2))).map
        (fun b => bondDelta E P w b (π i))).sum
      = (bonds.map (fun b => bondDelta E P w b i)).sum := by
    rw [List.map_map]
    apply congrArg List.sum
    apply List.map_congr_left
    intro b hb
    show bondDelta E P w (canon (π b.1, π b.2)) (π i) = bondDelta E P w b i
    rw [bondDelta_canon]
    calc bondDelta E P w (π b.1, π b.2) (π i)
        = bondDelta E P w (b.1, b.2) i :=
          bondDelta_pi E P w π hP hw hE (hbr b hb).1 (hbr b hb).2 hi
      _ = bondDelta E P w b i := by rw [Prod.mk.eta]
  rw [step1, step2, step3]

theorem iterState_work_pi (m : Molecule) (π : Equiv.Perm ℕ)
    (hbr : ∀ b ∈ m.bonds, b.1 < m.array_length ∧ b.2 < m.array_length)
    (hrange : ∀ j, j < m.array_length → π j < m.array_length)
    (hE : ∀ j, j < m.array_length → m.element.getD (π j) "" = m.element.getD j "")
    (hB : (m.bonds.map (fun b => canon (π b.1, π b.2))).Perm (m.bonds.map canon))
    (steps : Nat) :
    ∀ (w : List ℚ) (damp : ℚ), w.length = m.array_length →
      (∀ j, j < m.array_length → w.getD (π j) 0 = w.getD j 0) →
      ∀ j, j < m.array_length →
        (iterState steps ⟨m, paramsOf m, w, damp⟩).work.getD (π j) 0
          = (iterState steps ⟨m, paramsOf m, w, damp⟩).work.getD j 0 := by
  have hP : ∀ x, x < m.array_length →
      (paramsOf m).getD (π x) none = (paramsOf m).getD x none := by
    intro x hx
    rw [paramsOf_getD m (hrange x hx), paramsOf_getD m hx, hE x hx,
      degreeOf_pi m.bonds π hB x]
  induction steps with
  | zero => intro w damp hlen hw j hj; exact hw j hj
  | succ k ih =>
    intro w damp hlen hw j hj
    show (iterState k (stepState ⟨m, paramsOf m, w, damp⟩)).work.getD (π j) 0
      = (iterState k (stepState ⟨m, paramsOf m, w, damp⟩)).work.getD j 0
    have hstep : stepState (⟨m, paramsOf m, w, damp⟩ : ChargeState)
        = ⟨m, paramsOf m, stepWork m.element (paramsOf m) m.bonds damp w,
            damp / 2⟩ := rfl
    rw [hstep]
    apply ih
    · rw [stepWork_length, hlen]
    · intro x hx
      unfold stepWork
      rw [getD_map_range _ (by rw [hlen]; exact hrange x hx) 0,
        getD_map_range _ (by rw [hlen]; exact hx) 0, hw x hx,
        bondDeltas_pi m.element (paramsOf m) m.bonds w π hbr hB hP hw hE hx]
    · exact hj

theorem okCharges_eq_assemble (m : Molecule) (steps : Nat)
    (hlen : m.charge.length = m.array_length)
    (hbr : ∀ b ∈ m.bonds, b.1 < m.array_length ∧ b.2 < m.array_length) :
    okCharges m steps = assembleCharges m steps := by
  have hany : (m.bonds.any
      (fun b => m.array_length ≤ b.1 || m.array_length ≤ b.2)) = false := by
    rw [List.any_eq_false]
    intro b hb
    simp only [Bool.or_eq_true, decide_eq_true_eq, not_or, not_le]
    exact ⟨(hbr b hb).1, (hbr b hb).2⟩
  unfold okCharges computePartialCharges
  rw [if_neg (fun hc => hc hlen), if_neg (by simp [hany])]

theorem getD_map_cast (l : List ℤ) {j : Nat} (hj : j < l.length) :
    (List.map (fun c : ℤ => (c : ℚ)) l).getD j 0 = ((l.getD j 0 : ℤ) : ℚ) := by
  rw [List.getD_eq_getElem _ _ (by simpa using hj), List.getElem_map,
    List.getD_eq_getElem _ _ hj]

/-- C10: for every well-formed molecule and every graph automorphism
(a permutation of atom indices preserving elements, formal charges and
the bond set as unordered pairs), atoms mapped to each other receive
identical charges from `compute_partial_charges`. -/
theorem automorphism_equal_charges (m : Molecule) (π : Equiv.Perm ℕ)
    (steps i : Nat)
    (hlen : m.charge.length = m.array_length)
    (hbr : ∀ b ∈ m.bonds, b.1 < m.array_length ∧ b.2 < m.array_length)
    (hrange : ∀ j, j < m.array_length → π j < m.array_length)
    (hE : ∀ j, j < m.array_length →
      m.element.getD (π j) "" = m.element.getD j "")
    (hC : ∀ j, j < m.array_length → m.charge.getD (π j) 0 = m.charge.getD j 0)
    (hB : (m.bonds.map (fun b => canon (π b.1, π b.2))).Perm (m.bonds.map canon))
    (hi : i < m.array_length) :
    (okCharges m steps).getD (π i) none = (okCharges m steps).getD i none := by
  rw [okCharges_eq_assemble m steps hlen hbr]
  unfold assembleCharges
  rw [getD_map_range _ (hrange i hi) none, getD_map_range _ hi none]
  have hw0len : (List.map (fun c : ℤ => (c : ℚ)) m.charge).length
      = m.array_length := by
    rw [List.length_map, hlen]
  have hw0 : ∀ j, j < m.array_length →
      (List.map (fun c : ℤ => (c : ℚ)) m.charge).getD (π j) 0
        = (List.map (fun c : ℤ => (c : ℚ)) m.charge).getD j 0 := by
    intro j hj
    rw [getD_map_cast m.charge (hlen ▸ hrange j hj),
      getD_map_cast m.charge (hlen ▸ hj), hC j hj]
  have hwork : (runState m steps).work.getD (π i) 0
      = (runState m steps).work.getD i 0 := by
    show (iterState steps
        ⟨m, paramsOf m, List.map (fun c : ℤ => (c : ℚ)) m.charge, 1/2⟩).work.getD (π i) 0
      = (iterState steps
        ⟨m, paramsOf m, List.map (fun c : ℤ => (c : ℚ)) m.charge, 1/2⟩).work.getD i 0
    exact iterState_work_pi m π hbr hrange hE hB steps _ _ hw0len hw0 i hi
  rw [hE i hi, degreeOf_pi m.bonds π hB i, hwork, hC i hi]

/-- Instance of `automorphism_equal_charges`: the two carbons of ethane
receive identical charges. -/
theorem automorphism_equal_charges_witness :
    (okCharges ethane 6).getD (ethaneSwap 0) none
      = (okCharges ethane 6).getD 0 none :=
  automorphism_equal_charges ethane ethaneSwap 6 0 (by decide) (by decide)
    (by decide) (by decide) (by decide) (by decide) (by decide)
